import Mathlib

/-!
# Verification of the ReelSummarize backend extraction and summarization core

This file gives a shallow embedding, in Lean 4, of the text-extraction and
summarization-orchestration core of the ReelSummarize backend
(`services/geocoder.py` and `services/summarizer.py`), together with
theorems settling the specification claims about that core.

Modelling conventions:
* Python strings are modelled as `String` / `List Char`; `\s`, `str.strip()`
  and `str.split()` whitespace is modelled as the ASCII whitespace characters
  (space, tab, newline, vertical tab, form feed, carriage return).
* Python regular expressions used by the code are translated into explicit
  recursive matching functions over `List Char`, with the same backtracking
  order (leftmost search position, greedy or lazy quantifiers) as `re`.
* Latitude/longitude floats are modelled as rationals (`ℚ`); `round(x, 3)`
  is modelled as round-half-to-even at three decimal places.
* External collaborators (Gemini generation, Google file API, the geocoding
  HTTP endpoint) are modelled as oracle parameters giving each call's
  outcome; a Python exception escaping a call is an `Except.error` value.
-/

set_option autoImplicit false

namespace ReelSummarize

/-! ## Basic character and string helpers -/

theorem length_dropWhile_le {α : Type} (p : α → Bool) (l : List α) :
    (l.dropWhile p).length ≤ l.length := by
  induction l with
  | nil => simp [List.dropWhile]
  | cons a t ih =>
    cases hpa : p a
    · simp [List.dropWhile, hpa]
    · simp only [List.dropWhile, hpa, List.length_cons]
      exact ih.trans (Nat.le_succ _)

/-- ASCII whitespace, modelling Python's `\s` / `str.strip()` / `str.split()`
whitespace classes. -/
def isPySpace (c : Char) : Bool :=
  c = ' ' || c = '\t' || c = '\n' || c = '\r' || c = Char.ofNat 11 || c = Char.ofNat 12

/-- Case-insensitive character comparison (Python `re.IGNORECASE`). -/
def ciEq (a b : Char) : Bool := a.toLower = b.toLower

/-- `str.strip()` on a character list. -/
def pyStrip (cs : List Char) : List Char :=
  (((cs.dropWhile isPySpace).reverse).dropWhile isPySpace).reverse

/-- `str.strip()` on a `String`. -/
def pyStripStr (s : String) : String := String.mk (pyStrip s.toList)

/-- `needle.isPrefixOf hay` with explicit recursion (exact characters). -/
def startsWithChars : List Char → List Char → Bool
  | [], _ => true
  | _ :: _, [] => false
  | a :: as, b :: bs => a = b && startsWithChars as bs

/-- Case-insensitive prefix removal: if `pat` (lower-case) is a
case-insensitive prefix of `cs`, return the remainder. -/
def stripPrefixCI : List Char → List Char → Option (List Char)
  | [], cs => some cs
  | _ :: _, [] => none
  | p :: ps, c :: cs => if ciEq p c then stripPrefixCI ps cs else none

/-- Python's substring test `needle in hay` (for non-empty needles). -/
def containsSub (needle : List Char) : List Char → Bool
  | [] => startsWithChars needle []
  | c :: rest => startsWithChars needle (c :: rest) || containsSub needle rest

/-- Python `str.split(sep='\n')`: split at every newline, keeping empties. -/
def splitOnNl : List Char → List (List Char)
  | [] => [[]]
  | c :: rest =>
    match splitOnNl rest with
    | [] => [[c]]
    | h :: t => if c = '\n' then [] :: h :: t else (c :: h) :: t

/-- Python `str.split(sep=',')`: split at every comma, keeping empties. -/
def splitOnComma : List Char → List (List Char)
  | [] => [[]]
  | c :: rest =>
    match splitOnComma rest with
    | [] => [[c]]
    | h :: t => if c = ',' then [] :: h :: t else (c :: h) :: t

/-- Python `str.split()` (no separator): whitespace-run split, no empties.
The fuel is an upper bound on the input length (each recursive call
shortens the input by at least one character), so the zero-fuel case is
unreachable from the wrapper below; structural recursion on the fuel
keeps the function kernel-reducible. -/
def pySplitWordsF : Nat → List Char → List (List Char)
  | 0, _ => []
  | _ + 1, [] => []
  | n + 1, c :: rest =>
    if isPySpace c then pySplitWordsF n rest
    else (c :: rest.takeWhile (fun x => !isPySpace x)) ::
         pySplitWordsF n (rest.dropWhile (fun x => !isPySpace x))

/-- Python `str.split()`. -/
def pySplitWords (cs : List Char) : List (List Char) :=
  pySplitWordsF cs.length cs

/-- Python `' '.join(s.split())` after the leading whitespace has been
dropped: collapse every whitespace run to a single space and drop a
trailing run.  Fuel as in `pySplitWordsF`. -/
def collapseWsCoreF : Nat → List Char → List Char
  | 0, _ => []
  | _ + 1, [] => []
  | n + 1, c :: rest =>
    if isPySpace c then
      if (rest.dropWhile isPySpace).isEmpty then []
      else ' ' :: collapseWsCoreF n (rest.dropWhile isPySpace)
    else c :: collapseWsCoreF n rest

/-- `' '.join(s.split())`. -/
def collapseWs (cs : List Char) : List Char :=
  collapseWsCoreF cs.length (cs.dropWhile isPySpace)

/-! ## `Geocoder._clean_location_name`

The cleaning pipeline of `geocoder.py`, translated stage by stage.  Each
regular-expression substitution from the source becomes one recursive
function below, in the same order as the source applies them. -/

/-- The alternatives of `r'^(?:at|in|near|around|from|to)\s+'`. -/
def prepositionList : List (List Char) :=
  [['a','t'], ['i','n'], ['n','e','a','r'], ['a','r','o','u','n','d'],
   ['f','r','o','m'], ['t','o']]

/-- One alternative of the leading-preposition pattern: the word (case
insensitively) followed by at least one whitespace character; the greedy
`\s+` consumes the whole whitespace run. -/
def stripPrepOne (p cs : List Char) : Option (List Char) :=
  match stripPrefixCI p cs with
  | none => none
  | some rest =>
    match rest with
    | [] => none
    | c :: _ => if isPySpace c then some (rest.dropWhile isPySpace) else none

/-- Try the preposition alternatives in source order; on the first hit,
drop the matched prefix (alternatives are not prefixes of one another, so
at most one can match). -/
def stripPrepFind : List (List Char) → List Char → Option (List Char)
  | [], _ => none
  | p :: ps, cs =>
    match stripPrepOne p cs with
    | some r => some r
    | none => stripPrepFind ps cs

/-- `re.sub(r'^(?:at|in|near|around|from|to)\s+', '', cleaned, IGNORECASE)`:
anchored at the start, so at most one substitution happens. -/
def stripLeadingPrep (cs : List Char) : List Char :=
  match stripPrepFind prepositionList cs with
  | some r => r
  | none => cs

/-- Scan for the closing delimiter with no intervening newline (the lazy
`.*?` of `\(.*?\)` cannot cross a newline); returns the suffix after it. -/
def findCloseNoNl (cl : Char) : List Char → Option (List Char)
  | [] => none
  | c :: rest =>
    if c = cl then some rest
    else if c = '\n' then none
    else findCloseNoNl cl rest

theorem findCloseNoNl_length {cl : Char} :
    ∀ {cs r : List Char}, findCloseNoNl cl cs = some r → r.length < cs.length := by
  intro cs
  induction cs with
  | nil => intro r h; simp [findCloseNoNl] at h
  | cons c rest ih =>
    intro r h
    simp only [findCloseNoNl] at h
    by_cases h1 : c = cl
    · rw [if_pos h1, Option.some.injEq] at h
      subst h
      simp only [List.length_cons]
      omega
    · rw [if_neg h1] at h
      by_cases h2 : c = '\n'
      · rw [if_pos h2] at h
        exact absurd h (by simp)
      · rw [if_neg h2] at h
        have := ih h
        simp only [List.length_cons]
        omega

/-- `re.sub(r'\(.*?\)', '', s)` (and the bracketed variant): repeatedly
delete a delimited group whose body has no newline, continuing the scan
after each deletion, exactly as `re.sub` scans left to right.  Fuel as in
`pySplitWordsF`. -/
def stripDelimsF (op cl : Char) : Nat → List Char → List Char
  | 0, _ => []
  | _ + 1, [] => []
  | n + 1, c :: rest =>
    if c = op then
      match findCloseNoNl cl rest with
      | some after => stripDelimsF op cl n after
      | none => c :: stripDelimsF op cl n rest
    else c :: stripDelimsF op cl n rest

/-- `re.sub` with a delimited-group pattern. -/
def stripDelims (op cl : Char) (cs : List Char) : List Char :=
  stripDelimsF op cl cs.length cs

/-- The article alternatives of `r'(?:^|\s)(?:the|a|an)\s+'`, in source
order. -/
def articleList : List (List Char) :=
  [['t','h','e'], ['a'], ['a','n']]

/-- Try to match one article followed by at least one whitespace character
at the head of `cs` (the greedy `\s+` takes the whole run); at most one
alternative can succeed. -/
def matchArticleWs : List (List Char) → List Char → Option (List Char)
  | [], _ => none
  | a :: as, cs =>
    match stripPrepOne a cs with
    | some r => some r
    | none => matchArticleWs as cs

theorem stripPrefixCI_length {p : List Char} :
    ∀ {cs r : List Char}, stripPrefixCI p cs = some r → r.length + p.length = cs.length := by
  induction p with
  | nil => intro cs r h; simp [stripPrefixCI] at h; simp [h]
  | cons x xs ih =>
    intro cs r h
    cases cs with
    | nil => simp [stripPrefixCI] at h
    | cons c cs' =>
      simp only [stripPrefixCI] at h
      by_cases hc : ciEq x c
      · simp only [hc, if_true] at h
        have := ih h
        simp only [List.length_cons]
        omega
      · simp [hc] at h

theorem stripPrepOne_length {p : List Char} (hp : p ≠ []) :
    ∀ {cs r : List Char}, stripPrepOne p cs = some r → r.length < cs.length := by
  intro cs r h
  simp only [stripPrepOne] at h
  cases hs : stripPrefixCI p cs with
  | none => rw [hs] at h; simp at h
  | some rest =>
    rw [hs] at h
    have hlen := stripPrefixCI_length hs
    cases rest with
    | nil => simp at h
    | cons c rest' =>
      by_cases hws : isPySpace c
      · simp only [hws, if_true, Option.some.injEq] at h
        subst h
        have hd := length_dropWhile_le isPySpace (c :: rest')
        have hp' : 0 < p.length := List.length_pos.mpr hp
        simp only [List.length_cons] at hlen hd
        omega
      · simp [hws] at h

theorem matchArticleWs_length :
    ∀ {as : List (List Char)}, (∀ a ∈ as, a ≠ []) →
    ∀ {cs r : List Char}, matchArticleWs as cs = some r → r.length < cs.length := by
  intro as
  induction as with
  | nil => intro _ cs r h; simp [matchArticleWs] at h
  | cons a as' ih =>
    intro hne cs r h
    simp only [matchArticleWs] at h
    cases ho : stripPrepOne a cs with
    | some r' =>
      rw [ho] at h
      simp at h
      subst h
      exact stripPrepOne_length (hne a (by simp)) ho
    | none =>
      rw [ho] at h
      exact ih (fun x hx => hne x (by simp [hx])) h

/-- `re.sub(r'(?:^|\s)(?:the|a|an)\s+', '', s, IGNORECASE)`.

The flag records whether the current position is the start of the string
(where the zero-width `^` alternative applies); at any position a single
whitespace character can begin a match, in which case that character is
consumed together with the article and the following whitespace run, and
scanning resumes after the match. -/
def remArtF : Nat → Bool → List Char → List Char
  | 0, _, _ => []
  | _ + 1, _, [] => []
  | n + 1, start, c :: rest =>
    if start then
      match matchArticleWs articleList (c :: rest) with
      | some after => remArtF n false after
      | none =>
        if isPySpace c then
          match matchArticleWs articleList rest with
          | some after => remArtF n false after
          | none => c :: remArtF n false rest
        else c :: remArtF n false rest
    else
      if isPySpace c then
        match matchArticleWs articleList rest with
        | some after => remArtF n false after
        | none => c :: remArtF n false rest
      else c :: remArtF n false rest

/-- `re.sub(r'(?:^|\s)(?:the|a|an)\s+', '', s, IGNORECASE)` (fuel as in
`pySplitWordsF`: every article match consumes at least two characters and
every step at least one, so the input length bounds the recursion). -/
def remArt (start : Bool) (cs : List Char) : List Char :=
  remArtF cs.length start cs

/-- The dash class `[-–—]` (hyphen, en dash, em dash). -/
def isDashChar (c : Char) : Bool :=
  c = '-' || c = Char.ofNat 0x2013 || c = Char.ofNat 0x2014

/-- `\s*.+$` viewed from a position extending to the end of the body (a
string already stripped of a single final newline): some whitespace run
(possibly empty, newlines allowed) followed by at least one character and
no newline up to the end. -/
def wsStarDotPlusOk : List Char → Bool
  | [] => false
  | c :: rest =>
    (c :: rest).all (fun x => x ≠ '\n') || (isPySpace c && wsStarDotPlusOk rest)

/-- `\s+.+$` from a position extending to the end of the body: at least one
whitespace character, then at least one character and no newline up to the
end. -/
def wsPlusDotPlusOk : List Char → Bool
  | [] => false
  | c :: rest =>
    isPySpace c && ((!rest.isEmpty && rest.all (fun x => x ≠ '\n')) || wsPlusDotPlusOk rest)

/-- Scan for the first dash that completes a match of
`(?:\s*[-–—]\s*.+)$`; returns the prefix kept before the match (the
whitespace run immediately before the dash belongs to the match). -/
def dashScan : List Char → Option (List Char)
  | [] => none
  | c :: rest =>
    if isDashChar c && wsStarDotPlusOk rest then some []
    else
      match dashScan rest with
      | some kept => if kept.isEmpty && isPySpace c then some [] else some (c :: kept)
      | none => none

/-- Without `re.MULTILINE`, `$` matches at the end of the string or just
before a single final newline; strip that final newline off before
matching and restore it afterwards. -/
def splitFinalNl (cs : List Char) : List Char × List Char :=
  match cs.getLast? with
  | some c => if c = '\n' then (cs.dropLast, ['\n']) else (cs, [])
  | none => (cs, [])

/-- `re.sub(r'(?:\s*[-–—]\s*.+)$', '', s)`. -/
def removeDashClause (cs : List Char) : List Char :=
  let p := splitFinalNl cs
  match dashScan p.1 with
  | some kept => kept ++ p.2
  | none => cs

/-- The keyword alternatives of `r'(?:,\s*(?:which|where|that|a|the)\s+.+)$'`. -/
def commaKwList : List (List Char) :=
  [['w','h','i','c','h'], ['w','h','e','r','e'], ['t','h','a','t'], ['a'], ['t','h','e']]

/-- One keyword followed by `\s+.+$`. -/
def commaKwOk (cs : List Char) : Bool :=
  commaKwList.any (fun kw =>
    match stripPrefixCI kw cs with
    | some r => wsPlusDotPlusOk r
    | none => false)

/-- After the comma: `\s*` (possibly empty, extended over the whitespace
run by backtracking) then keyword then `\s+.+$`. -/
def commaTailOk : List Char → Bool
  | [] => false
  | c :: rest => commaKwOk (c :: rest) || (isPySpace c && commaTailOk rest)

/-- Scan for the first comma that completes a match of
`(?:,\s*(?:which|where|that|a|the)\s+.+)$`; returns the prefix kept before
the comma. -/
def commaScan : List Char → Option (List Char)
  | [] => none
  | c :: rest =>
    if c = ',' && commaTailOk rest then some []
    else
      match commaScan rest with
      | some kept => some (c :: kept)
      | none => none

/-- `re.sub(r'(?:,\s*(?:which|where|that|a|the)\s+.+)$', '', s, IGNORECASE)`. -/
def removeCommaClause (cs : List Char) : List Char :=
  let p := splitFinalNl cs
  match commaScan p.1 with
  | some kept => kept ++ p.2
  | none => cs

/-- The characters of `strip('"\'""''')` in the source: the set is just the
ASCII double and single quote (the literal repeats them). -/
def isQuoteChar (c : Char) : Bool :=
  c = Char.ofNat 34 || c = Char.ofNat 39

/-- `str.strip('"\'""''')`. -/
def stripQuotes (cs : List Char) : List Char :=
  (((cs.dropWhile isQuoteChar).reverse).dropWhile isQuoteChar).reverse

/-- The characters of `rstrip('.,;:!?')`. -/
def isTrailPunct (c : Char) : Bool :=
  c = '.' || c = ',' || c = ';' || c = ':' || c = '!' || c = '?'

/-- `str.rstrip('.,;:!?')`. -/
def rstripPunct (cs : List Char) : List Char :=
  (cs.reverse.dropWhile isTrailPunct).reverse

/-- `Geocoder._clean_location_name`, stage for stage in source order:
strip, leading prepositions, parentheses, brackets, articles, trailing
dash clause, trailing comma clause, quotes, trailing punctuation,
whitespace collapse, final strip. -/
def clean_location_name (name : String) : String :=
  let cs := pyStrip name.toList
  let cs := stripLeadingPrep cs
  let cs := stripDelims '(' ')' cs
  let cs := stripDelims '[' ']' cs
  let cs := remArt true cs
  let cs := removeDashClause cs
  let cs := removeCommaClause cs
  let cs := stripQuotes cs
  let cs := rstripPunct cs
  let cs := pyStrip (collapseWs cs)
  String.mk cs

/-! ## `Geocoder` phrase lists and validity heuristic -/

/-- `Geocoder.NO_LOCATION_PHRASES`, in source order. -/
def NO_LOCATION_PHRASES : List String :=
  ["none mentioned", "none", "n/a", "not mentioned",
   "no specific", "no locations", "not specified",
   "none were mentioned", "no places", "not applicable",
   "no location", "unidentified", "unknown location",
   "no geographical", "not identifiable", "indoors",
   "indoor setting", "studio", "unspecified"]

/-- `Geocoder.SKIP_PHRASES`, in source order. -/
def SKIP_PHRASES : List String :=
  ["the video", "this video", "the reel", "various",
   "multiple locations", "several places", "different areas",
   "background", "setting", "scene", "shot", "frame",
   "mentioned", "shown", "visible", "appears", "featured"]

/-- `Geocoder._is_valid_location`: the validity heuristic chain, in source
order.  `sum(c.isdigit()) > len(name)/2` (true division) is the exact
integer comparison `2 * digits > len`. -/
def is_valid_location (name : String) : Bool :=
  let cs := name.toList
  let lower := cs.map Char.toLower
  if cs.length < 2 || cs.length > 100 then false
  else if SKIP_PHRASES.any (fun p => containsSub p.toList lower) then false
  else if NO_LOCATION_PHRASES.any (fun p => containsSub p.toList lower) then false
  else if 2 * (cs.countP (fun c => c.isDigit)) > cs.length then false
  else if !(cs.any (fun c => c.isAlpha)) then false
  else if (pySplitWords cs).length > 6 then false
  else true

/-! ## `Geocoder._parse_location_lines` -/

/-- The bullet/numbering class `[\s\-\*•►▸→·‣⁃\d\.\)]` of the
leading-glyph-stripping substitution. -/
def isBulletChar (c : Char) : Bool :=
  isPySpace c || c = '-' || c = '*' || c = Char.ofNat 0x2022 ||
  c = Char.ofNat 0x25BA || c = Char.ofNat 0x25B8 || c = Char.ofNat 0x2192 ||
  c = Char.ofNat 0xB7 || c = Char.ofNat 0x2023 || c = Char.ofNat 0x2043 ||
  c.isDigit || c = '.' || c = ')'

/-- One match step of `re.split(r'\s+and\s+', line, IGNORECASE)` at a
whitespace position: the whole whitespace run, then `and`, then at least
one whitespace character (the greedy runs cannot stop early because the
next pattern element rules the run's characters out). -/
def matchAndAt (cs : List Char) : Option (List Char) :=
  match stripPrefixCI ['a','n','d'] (cs.dropWhile isPySpace) with
  | none => none
  | some r =>
    match r with
    | [] => none
    | c :: _ => if isPySpace c then some (r.dropWhile isPySpace) else none

theorem matchAndAt_length {cs r : List Char} (hne : cs ≠ [])
    (hws : isPySpace cs.head! = true) (h : matchAndAt cs = some r) :
    r.length < cs.length := by
  simp only [matchAndAt] at h
  cases hs : stripPrefixCI ['a','n','d'] (cs.dropWhile isPySpace) with
  | none => rw [hs] at h; simp at h
  | some rr =>
    rw [hs] at h
    have h1 := stripPrefixCI_length hs
    have h2 := length_dropWhile_le isPySpace cs
    cases rr with
    | nil => simp at h
    | cons c rest =>
      by_cases hc : isPySpace c
      · simp only [hc, if_true, Option.some.injEq] at h
        subst h
        have h3 := length_dropWhile_le isPySpace (c :: rest)
        simp only [List.length_cons] at h1 h3
        omega
      · simp [hc] at h

/-- `re.split(r'\s+and\s+', line, flags=IGNORECASE)`: accumulate the
current part and split at every (leftmost, non-overlapping) match.  Fuel
as in `pySplitWordsF`. -/
def splitOnAndCIF : Nat → List Char → List Char → List (List Char)
  | 0, _, acc => [acc.reverse]
  | _ + 1, [], acc => [acc.reverse]
  | n + 1, c :: rest, acc =>
    if isPySpace c then
      match matchAndAt (c :: rest) with
      | some after => acc.reverse :: splitOnAndCIF n after []
      | none => splitOnAndCIF n rest (c :: acc)
    else splitOnAndCIF n rest (c :: acc)

/-- `re.split(r'\s+and\s+', line, flags=IGNORECASE)`. -/
def splitOnAndCI (cs : List Char) : List (List Char) :=
  splitOnAndCIF cs.length cs []

/-- Clean-and-validate one candidate: append `clean_location_name part`
when `_is_valid_location` accepts it. -/
def cleanValid (part : List Char) : List String :=
  let cleaned := clean_location_name (String.mk part)
  if is_valid_location cleaned then [cleaned] else []

/-- The per-line body of `_parse_location_lines`: strip, drop empty lines
and lines containing a no-location phrase, strip leading bullet glyphs,
then split according to comma density or an `and` conjunction. -/
def processLine (line0 : List Char) : List String :=
  let line := pyStrip line0
  if line.isEmpty then []
  else
    let lineLower := line.map Char.toLower
    if NO_LOCATION_PHRASES.any (fun p => containsSub p.toList lineLower) then []
    else
      let line2 := pyStrip (line.dropWhile isBulletChar)
      if line2.isEmpty then []
      else
        let commaCount := line2.count ','
        if commaCount > 2 then
          (splitOnComma line2).flatMap (fun part => cleanValid (pyStrip part))
        else if containsSub [' ','a','n','d',' '] (line2.map Char.toLower) && commaCount = 0 then
          (splitOnAndCI line2).flatMap cleanValid
        else
          cleanValid line2

/-- `Geocoder._parse_location_lines`. -/
def parse_location_lines (content : String) : List String :=
  let contentLower := String.mk (pyStrip (content.toList.map Char.toLower))
  if NO_LOCATION_PHRASES.any (fun p =>
      contentLower = p || startsWithChars p.toList contentLower.toList) then []
  else
    (splitOnNl content.toList).flatMap processLine

/-! ## A small backtracking matcher for the fixed section/title patterns

The regular expressions of `_extract_locations_section` and
`extract_title_from_summary` are built from single-character atoms with
greedy or lazy quantifiers, lookaheads made of simple sequences, and
anchors.  They are translated into the piece lists below and matched with
Python `re`'s strategy: search positions left to right, backtracking with
greedy quantifiers trying longest first and lazy ones shortest first.
The current position carries the previous character (`none` at the start
of the string) so that `^` and multiline `$` can be decided locally. -/

/-- Pieces allowed inside a lookahead (no nesting needed by the source's
patterns). -/
inductive LPiece where
  | lit (c : Char)
  | cls (p : Char → Bool)
  | plus (p : Char → Bool)
  | repC (c : Char) (lo hi : Nat)
  | dollarML
  | endStr

/-- Pieces of the main pattern body before the single capture group. -/
inductive RPiece where
  | lit (c : Char)
  | star (p : Char → Bool)
  | optC (c : Char)
  | repC (c : Char) (lo hi : Nat)
  | plusC (c : Char)
  | bolML
  | startOrNl
  | look (alts : List (List LPiece))

/-- States after consuming a greedy run of `p`-characters, longest first;
each state is (previous character, remaining input). -/
def starStates (p : Char → Bool) : Option Char → List Char → List (Option Char × List Char)
  | prev, [] => [(prev, [])]
  | prev, c :: rest =>
    if p c then starStates p (some c) rest ++ [(prev, c :: rest)]
    else [(prev, c :: rest)]

/-- States after consuming at least one `p`-character, longest first. -/
def plusStates (p : Char → Bool) (prev : Option Char) : List Char → List (Option Char × List Char)
  | [] => []
  | c :: rest => if p c then starStates p (some c) rest else []

/-- States after consuming between `lo` and `hi` copies of the literal
`c` (case-insensitively), longest first. -/
def repStates (c : Char) : Nat → Nat → Option Char → List Char → List (Option Char × List Char)
  | lo, 0, prev, cs => if lo = 0 then [(prev, cs)] else []
  | lo, hi + 1, prev, cs =>
    match cs with
    | [] => if lo = 0 then [(prev, [])] else []
    | x :: rest =>
      if ciEq x c then
        repStates c (lo - 1) hi (some x) rest ++ (if lo = 0 then [(prev, x :: rest)] else [])
      else if lo = 0 then [(prev, x :: rest)] else []

/-- Match a lookahead sequence; Boolean because lookaheads are zero-width
and capture nothing. -/
def lookSeq : List LPiece → Option Char → List Char → Bool
  | [], _, _ => true
  | p :: rest, prev, cs =>
    match p with
    | .lit c =>
      match cs with
      | x :: t => ciEq x c && lookSeq rest (some x) t
      | [] => false
    | .cls q =>
      match cs with
      | x :: t => q x && lookSeq rest (some x) t
      | [] => false
    | .plus q => (plusStates q prev cs).any (fun st => lookSeq rest st.1 st.2)
    | .repC c lo hi => (repStates c lo hi prev cs).any (fun st => lookSeq rest st.1 st.2)
    | .dollarML =>
      (cs.isEmpty || (match cs with | x :: _ => x = '\n' | [] => false)) && lookSeq rest prev cs
    | .endStr => cs.isEmpty && lookSeq rest prev cs

/-- A lookahead `(?=A|B|…)` succeeds when some alternative matches. -/
def lookAlts (alts : List (List LPiece)) (prev : Option Char) (cs : List Char) : Bool :=
  alts.any (fun a => lookSeq a prev cs)

/-- Match the piece sequence with a success continuation; `Option` results
propagate the first (preferred) success, giving `re`'s backtracking
order. -/
def matchSeq : List RPiece → Option Char → List Char →
    (Option Char → List Char → Option (List Char)) → Option (List Char)
  | [], prev, cs, k => k prev cs
  | p :: rest, prev, cs, k =>
    match p with
    | .lit c =>
      match cs with
      | x :: t => if ciEq x c then matchSeq rest (some x) t k else none
      | [] => none
    | .star q => (starStates q prev cs).findSome? (fun st => matchSeq rest st.1 st.2 k)
    | .optC c =>
      match cs with
      | x :: t =>
        if ciEq x c then
          match matchSeq rest (some x) t k with
          | some r => some r
          | none => matchSeq rest prev cs k
        else matchSeq rest prev cs k
      | [] => matchSeq rest prev cs k
    | .repC c lo hi => (repStates c lo hi prev cs).findSome? (fun st => matchSeq rest st.1 st.2 k)
    | .plusC c => (plusStates (fun x => ciEq x c) prev cs).findSome? (fun st => matchSeq rest st.1 st.2 k)
    | .bolML =>
      if prev = none || prev = some '\n' then matchSeq rest prev cs k else none
    | .startOrNl =>
      match (if prev = none then matchSeq rest prev cs k else none) with
      | some r => some r
      | none =>
        match cs with
        | x :: t => if x = '\n' then matchSeq rest (some x) t k else none
        | [] => none
    | .look alts => if lookAlts alts prev cs then matchSeq rest prev cs k else none

/-- The capture group `(X+?)(?=LOOK)` ending every pattern: lazy, so try
the shortest non-empty capture first, extending one character at a time
while the class matches, until the lookahead holds. -/
def tryCapture (capCls : Char → Bool) (alts : List (List LPiece)) :
    List Char → List Char → Option (List Char)
  | accRev, cs =>
    match cs with
    | [] => none
    | c :: rest =>
      if capCls c then
        if lookAlts alts (some c) rest then some (c :: accRev).reverse
        else tryCapture capCls alts (c :: accRev) rest
      else none

/-- A full source pattern: body pieces, then one lazy-plus capture group,
then a final lookahead. -/
structure RPat where
  pre : List RPiece
  capCls : Char → Bool
  alts : List (List LPiece)

/-- Match the pattern at the current search position, returning the
capture group. -/
def matchPatAt (pat : RPat) (prev : Option Char) (cs : List Char) : Option (List Char) :=
  matchSeq pat.pre prev cs (fun _ cs2 => tryCapture pat.capCls pat.alts [] cs2)

/-- `re.search`: try search positions left to right. -/
def reSearch (pat : RPat) : Option Char → List Char → Option (List Char)
  | prev, cs =>
    match matchPatAt pat prev cs with
    | some g => some g
    | none =>
      match cs with
      | [] => none
      | c :: rest => reSearch pat (some c) rest

/-- `re.search(pattern, s).group(1)` as an `Option String`. -/
def reSearchPat (pat : RPat) (s : String) : Option String :=
  (reSearch pat none s.toList).map String.mk

/-! ## The concrete patterns of the source

The pushpin `📍` in `geocoder.py` is the single code point U+1F4CD, so
`📍?` makes the whole glyph optional.  The label `🏷️` in `summarizer.py`
is the two code points U+1F3F7 U+FE0F, so in `🏷️?` the quantifier binds
to the variation selector U+FE0F only and U+1F3F7 itself is required. -/

/-- U+1F4CD. -/
def pinChar : Char := Char.ofNat 0x1F4CD

/-- U+1F3F7. -/
def tagChar : Char := Char.ofNat 0x1F3F7

/-- U+FE0F. -/
def vs16Char : Char := Char.ofNat 0xFE0F

/-- `.` (no DOTALL): any character except newline. -/
def dotCls (c : Char) : Bool := c ≠ '\n'

/-- `[\s\S]`: any character. -/
def anyCls (_ : Char) : Bool := true

/-- `[ \t]`. -/
def spaceTabCls (c : Char) : Bool := c = ' ' || c = '\t'

/-- `[A-Z]` or `[a-z]` under `re.IGNORECASE`: any ASCII letter. -/
def azCls (c : Char) : Bool := c.isAlpha

/-- `[^📍]`. -/
def notPinCls (c : Char) : Bool := c ≠ pinChar

/-- The word `Locations?` as pattern pieces. -/
def locationsPieces : List RPiece :=
  [.lit 'l', .lit 'o', .lit 'c', .lit 'a', .lit 't', .lit 'i', .lit 'o', .lit 'n', .optC 's']

/-- The word `Title` as pattern pieces. -/
def titlePieces : List RPiece :=
  [.lit 't', .lit 'i', .lit 't', .lit 'l', .lit 'e']

/-- `r"#{1,4}\s*📍\s*Locations?\s*:?\s*\n([\s\S]+?)(?=\n#{1,4}\s[^📍]|\n---|\Z)"`. -/
def secPat1 : RPat where
  pre := [.repC '#' 1 4, .star isPySpace, .lit pinChar, .star isPySpace] ++
    locationsPieces ++ [.star isPySpace, .optC ':', .star isPySpace, .lit '\n']
  capCls := anyCls
  alts := [[.lit '\n', .repC '#' 1 4, .cls isPySpace, .cls notPinCls],
           [.lit '\n', .lit '-', .lit '-', .lit '-'],
           [.endStr]]

/-- `r"#{1,4}\s*Locations?\s*:?\s*\n([\s\S]+?)(?=\n#{1,4}\s|\n---|\Z)"`. -/
def secPat2 : RPat where
  pre := [.repC '#' 1 4, .star isPySpace] ++
    locationsPieces ++ [.star isPySpace, .optC ':', .star isPySpace, .lit '\n']
  capCls := anyCls
  alts := [[.lit '\n', .repC '#' 1 4, .cls isPySpace],
           [.lit '\n', .lit '-', .lit '-', .lit '-'],
           [.endStr]]

/-- `r"\*\*\s*📍?\s*Locations?\s*:?\s*\*\*\s*\n?([\s\S]+?)(?=\n\*\*|\n#{1,4}|\n---|\Z)"`. -/
def secPat3 : RPat where
  pre := [.lit '*', .lit '*', .star isPySpace, .optC pinChar, .star isPySpace] ++
    locationsPieces ++
    [.star isPySpace, .optC ':', .star isPySpace, .lit '*', .lit '*', .star isPySpace, .optC '\n']
  capCls := anyCls
  alts := [[.lit '\n', .lit '*', .lit '*'],
           [.lit '\n', .repC '#' 1 4],
           [.lit '\n', .lit '-', .lit '-', .lit '-'],
           [.endStr]]

/-- `r"(?:^|\n)📍?\s*Locations?\s*:[ \t]*\n([\s\S]+?)(?=\n[A-Z][a-z]+:|\n#{1,4}|\n---|\Z)"`. -/
def secPat4 : RPat where
  pre := [.startOrNl, .optC pinChar, .star isPySpace] ++
    locationsPieces ++ [.star isPySpace, .lit ':', .star spaceTabCls, .lit '\n']
  capCls := anyCls
  alts := [[.lit '\n', .cls azCls, .plus azCls, .lit ':'],
           [.lit '\n', .repC '#' 1 4],
           [.lit '\n', .lit '-', .lit '-', .lit '-'],
           [.endStr]]

/-- The ordered pattern list of `_extract_locations_section`. -/
def sectionPats : List RPat := [secPat1, secPat2, secPat3, secPat4]

/-- `r"#{1,4}\s*🏷️?\s*Title\s*:?\s*\n+(.+?)(?=\n#{1,4}\s|\n\n|$)"` with
`IGNORECASE | MULTILINE`. -/
def titlePat1 : RPat where
  pre := [.repC '#' 1 4, .star isPySpace, .lit tagChar, .optC vs16Char, .star isPySpace] ++
    titlePieces ++ [.star isPySpace, .optC ':', .star isPySpace, .plusC '\n']
  capCls := dotCls
  alts := [[.lit '\n', .repC '#' 1 4, .cls isPySpace],
           [.lit '\n', .lit '\n'],
           [.dollarML]]

/-- `r"\*\*\s*🏷️?\s*Title\s*:?\s*\*\*\s*\n?(.+?)(?=\n#{1,4}|\n\*\*|\n\n|$)"`. -/
def titlePat2 : RPat where
  pre := [.lit '*', .lit '*', .star isPySpace, .lit tagChar, .optC vs16Char, .star isPySpace] ++
    titlePieces ++ [.star isPySpace, .optC ':', .star isPySpace, .lit '*', .lit '*',
                    .star isPySpace, .optC '\n']
  capCls := dotCls
  alts := [[.lit '\n', .repC '#' 1 4],
           [.lit '\n', .lit '*', .lit '*'],
           [.lit '\n', .lit '\n'],
           [.dollarML]]

/-- `r"^🏷️?\s*Title\s*:?\s*\n?(.+?)(?=\n#{1,4}|\n\n|$)"`. -/
def titlePat3 : RPat where
  pre := [.bolML, .lit tagChar, .optC vs16Char, .star isPySpace] ++
    titlePieces ++ [.star isPySpace, .optC ':', .star isPySpace, .optC '\n']
  capCls := dotCls
  alts := [[.lit '\n', .repC '#' 1 4],
           [.lit '\n', .lit '\n'],
           [.dollarML]]

/-- The ordered pattern list of `extract_title_from_summary`. -/
def titlePats : List RPat := [titlePat1, titlePat2, titlePat3]

/-! ## `Geocoder._extract_locations_section` -/

/-- The pattern loop: `content = match.group(1).strip(); if content:
return content` — a pattern whose trimmed capture is empty falls through
to the next pattern. -/
def extractSectionLoop (text : String) : List RPat → Option String
  | [] => none
  | p :: rest =>
    match reSearchPat p text with
    | some body =>
      let content := pyStripStr body
      if content ≠ "" then some content else extractSectionLoop text rest
    | none => extractSectionLoop text rest

/-- `Geocoder._extract_locations_section`. -/
def extract_locations_section (text : String) : Option String :=
  extractSectionLoop text sectionPats

/-! ## `extract_title_from_summary` -/

/-- Clean-up applied to a raw title match: `strip()`, strip quotes,
`strip('.')` (both ends), collapse whitespace. -/
def cleanupTitle (raw : String) : String :=
  let t := pyStrip raw.toList
  let t := stripQuotes t
  let t := (((t.dropWhile (fun c => c = '.')).reverse).dropWhile (fun c => c = '.')).reverse
  String.mk (collapseWs t)

/-- The pattern loop of `extract_title_from_summary`: a match whose
cleaned title is outside 3–150 characters resets the title and tries the
next pattern. -/
def titleLoop (s : String) : List RPat → Option String
  | [] => none
  | p :: rest =>
    match reSearchPat p s with
    | none => titleLoop s rest
    | some raw =>
      let t := cleanupTitle raw
      if 3 ≤ t.length && t.length ≤ 150 then some t else titleLoop s rest

/-- `extract_title_from_summary`: returns the pair
`(title, summary)`; the summary is passed back unchanged. -/
def extract_title_from_summary (summary : String) : Option String × String :=
  if summary = "" then (none, summary)
  else (titleLoop summary titlePats, summary)

/-! ## `Geocoder.extract_locations_from_text` -/

/-- Order-preserving case-insensitive deduplication of the parsed
location names. -/
def dedupCI (seen : List String) : List String → List String
  | [] => []
  | l :: rest =>
    let low := l.toLower
    if seen.contains low then dedupCI seen rest
    else l :: dedupCI (low :: seen) rest

/-- `Geocoder.extract_locations_from_text`: extract the section, parse its
lines, deduplicate case-insensitively, cap the result at 10. -/
def extract_locations_from_text (text : String) : List String :=
  if text = "" then []
  else
    match extract_locations_section text with
    | none => []
    | some sec =>
      let locations := parse_location_lines sec
      if locations.isEmpty then []
      else (dedupCI [] locations).take 10

/-! ## `Geocoder.geocode` and `Geocoder.geocode_multiple`

The HTTP call to the geocoding endpoint is an oracle
`svc : String → Option GeoSuccess`: every non-success outcome (non-200
status, non-`OK` API status, missing results or coordinates, transport
error) is `none`; a success carries the first result's coordinates and
formatted address.  Latitude/longitude are modelled as rationals. -/

/-- A location with coordinates (`geocoder.Location`). -/
structure Location where
  name : String
  latitude : ℚ
  longitude : ℚ
  display_name : String
deriving DecidableEq

/-- A successful geocoding response (first result). -/
structure GeoSuccess where
  lat : ℚ
  lng : ℚ
  formatted_address : String
deriving DecidableEq

/-- Round half to even, as Python's `round`. -/
def roundHalfEven (x : ℚ) : ℤ :=
  let f := ⌊x⌋
  let r := x - f
  if r < 1 / 2 then f
  else if 1 / 2 < r then f + 1
  else if f % 2 = 0 then f else f + 1

/-- `round(x, 3)`. -/
def round3 (x : ℚ) : ℚ := (roundHalfEven (x * 1000) : ℚ) / 1000

/-- `Geocoder.geocode`: clean the name, reject invalid names, then ask
the geocoding collaborator; any non-success outcome yields `none`. -/
def geocode (apiKeySet : Bool) (svc : String → Option GeoSuccess)
    (location_name : String) : Option Location :=
  if !apiKeySet then none
  else
    let cleaned := clean_location_name location_name
    if !is_valid_location cleaned then none
    else
      match svc cleaned with
      | none => none
      | some r => some ⟨cleaned, r.lat, r.lng, r.formatted_address⟩

/-- The sequential batch loop of `geocode_multiple`, carrying the set of
already-seen rounded coordinate keys (the inter-call 100 ms delay has no
effect on the value computed). -/
def geocodeMultipleGo (apiKeySet : Bool) (svc : String → Option GeoSuccess) :
    List String → List (ℚ × ℚ) → List Location
  | [], _ => []
  | name :: rest, seen =>
    match geocode apiKeySet svc name with
    | none => geocodeMultipleGo apiKeySet svc rest seen
    | some loc =>
      let key := (round3 loc.latitude, round3 loc.longitude)
      if seen.contains key then geocodeMultipleGo apiKeySet svc rest seen
      else loc :: geocodeMultipleGo apiKeySet svc rest (key :: seen)

/-- `Geocoder.geocode_multiple`: an unset API key short-circuits to the
empty batch; otherwise geocode sequentially, skipping locations whose
rounded coordinates were already seen. -/
def geocode_multiple (apiKeySet : Bool) (svc : String → Option GeoSuccess)
    (location_names : List String) : List Location :=
  if !apiKeySet then []
  else geocodeMultipleGo apiKeySet svc location_names []

/-! ## The summarizer orchestration (`summarizer.py`)

The Gemini calls are oracles.  A Python exception is an `Except.error`;
exceptions raised by the generation calls are either the module's
`SummarizationError` or any other exception. -/

/-- An exception escaping a generation call. -/
inductive PyExc where
  | summarizationError (msg : String)
  | otherError (msg : String)
deriving DecidableEq

/-- Python `str(e)` on a caught exception. -/
def excStr : PyExc → String
  | .summarizationError m => m
  | .otherError m => m

/-- The `method` tags of the result dictionary. -/
inductive Method where
  | video_analysis
  | metadata_analysis
  | failed
  | none_
deriving DecidableEq

/-- The dictionary returned by `Summarizer.summarize` (a missing `error`
key is `none`). -/
structure SummarizationResult where
  summary : Option String
  method : Method
  success : Bool
  error : Option String
deriving DecidableEq

/-- Python truthiness of an optional string (absent or empty is falsy). -/
def strTruthy : Option String → Bool
  | none => false
  | some s => s ≠ ""

/-- The metadata fields the orchestrator reads. -/
structure Metadata where
  title : Option String
  description : Option String
deriving DecidableEq

/-- `metadata and (metadata.get('title') or metadata.get('description'))`. -/
def metaTruthy : Option Metadata → Bool
  | none => false
  | some m => strTruthy m.title || strTruthy m.description

/-- Outcome of `_wait_for_file_active` for one attempt: the file became
`ACTIVE`; it reached `FAILED`; polling exceeded the wait bound; or some
other exception escaped a poll. -/
inductive WaitOutcome where
  | active
  | failedState
  | timedOut (maxWait : Nat)
  | other (msg : String)
deriving DecidableEq

/-- The external outcomes determining one `summarize_video` run: local
file existence, the upload call, the poll loop, the generation call, and
the remote delete call. -/
structure VideoCallOutcomes where
  fileExists : Bool
  uploadRes : Except String (String × String)
  waitRes : WaitOutcome
  genRes : Except String String
  delRes : Except String Unit

def apostrophe : String := String.mk [Char.ofNat 39]

/-- The message of the `FAILED`-state error in `_wait_for_file_active`. -/
def failedStateMsg : String :=
  "File processing failed on Google" ++ apostrophe ++ "s servers"

/-- `Summarizer._delete_file`: the deletion is attempted and its own
failure is swallowed (`except Exception: print(...)`), so the attempted
name is recorded regardless of the outcome. -/
def delete_file (delRes : Except String Unit) (nm : String) : List String :=
  match delRes with
  | .ok _ => [nm]
  | .error _ => [nm]

/-- `Summarizer.summarize_video`, as a function from the call outcomes to
(result or raised `SummarizationError` message, list of file names on
which deletion was attempted).  The `finally` block deletes the uploaded
file whenever a truthy `file_name` was obtained, on every exit path.
The prompt/mime-type construction only feeds the generation call and is
absorbed by the `genRes` oracle. -/
def summarize_video (video_path : String) (o : VideoCallOutcomes) :
    Except String String × List String :=
  if !o.fileExists then
    (.error ("Video file not found: " ++ video_path), [])
  else
    match o.uploadRes with
    | .error e => (.error ("Failed to upload video: " ++ e), [])
    | .ok (_, nm) =>
      let dels := if nm ≠ "" then delete_file o.delRes nm else []
      match o.waitRes with
      | .failedState => (.error failedStateMsg, dels)
      | .timedOut w =>
        (.error ("Timeout waiting for file to become active (waited " ++
          toString w ++ "s)"), dels)
      | .other m => (.error ("Failed waiting for file processing: " ++ m), dels)
      | .active =>
        match o.genRes with
        | .error e => (.error ("Gemini API error: " ++ e), dels)
        | .ok s => (.ok s, dels)

/-- The generic message of the final branch. -/
def noContentMsg : String := "No content available for summarization"

/-- `Summarizer.summarize`: the fallback state machine over one request,
with the video-analysis and metadata-analysis outcomes as oracles
(`videoGen` is whatever `summarize_video` produced; `metaGen` is the
outcome of `summarize_from_metadata`). -/
def summarize (video_path : Option String) (metadata : Option Metadata)
    (prefer_video : Bool) (videoGen : Except PyExc String)
    (metaGen : Except PyExc String) : SummarizationResult :=
  let afterVideo : Option String → SummarizationResult := fun video_error =>
    if metaTruthy metadata then
      match metaGen with
      | .ok s => ⟨some s, .metadata_analysis, true, none⟩
      | .error (.summarizationError m) => ⟨none, .failed, false, some m⟩
      | .error (.otherError m) => ⟨none, .failed, false, some ("Unexpected error: " ++ m)⟩
    else
      let errorMsg := match video_error with
        | some e => if e ≠ "" then e else noContentMsg
        | none => noContentMsg
      ⟨none, if strTruthy video_error then .failed else .none_, false, some errorMsg⟩
  if strTruthy video_path && prefer_video then
    match videoGen with
    | .ok s => ⟨some s, .video_analysis, true, none⟩
    | .error e => afterVideo (some (excStr e))
  else afterVideo none

/-! ## Claims -/

/-- Claim C1: for every combination of inputs (video path present or
absent, metadata present or absent, `prefer_video` true or false, and any
outcome of the external generation calls), `summarize` returns a
`SummarizationResult` (it is a total function of those outcomes, so no
exception escapes), and in every returned result `success = true` implies
the summary field is present. -/
theorem summarize_total_and_success_has_summary
    (video_path : Option String) (metadata : Option Metadata) (prefer_video : Bool)
    (videoGen metaGen : Except PyExc String)
    (h : (summarize video_path metadata prefer_video videoGen metaGen).success = true) :
    (summarize video_path metadata prefer_video videoGen metaGen).summary.isSome = true := by
  unfold summarize at *
  cases hv : strTruthy video_path && prefer_video <;> simp only [hv] at h ⊢ <;>
    cases videoGen <;> cases hm : metaTruthy metadata <;>
    simp only [hm, if_true, if_false, Bool.false_eq_true, if_neg, reduceIte] at h ⊢ <;>
    first
      | simp
      | (cases metaGen with
         | ok s => simp
         | error e => cases e <;> simp_all)

theorem summarize_total_and_success_has_summary_witness :
    (summarize (some "reel.mp4") none true (.ok "video summary") (.ok "m")).success = true ∧
    (summarize (some "reel.mp4") none true (.ok "video summary") (.ok "m")).summary.isSome = true :=
  ⟨by decide, summarize_total_and_success_has_summary (some "reel.mp4") none true
    (.ok "video summary") (.ok "m") (by decide)⟩

/-- Claim C2: when a truthy video path is supplied with
`prefer_video = true`, the video attempt fails with any exception, the
metadata carries a truthy title or description, and metadata generation
succeeds, the result is `method = metadata_analysis`, `success = true`,
with the video failure not surfaced. -/
theorem summarize_video_failure_falls_back
    (video_path : Option String) (metadata : Option Metadata)
    (e : PyExc) (s : String) (metaGen : Except PyExc String)
    (hvp : strTruthy video_path = true)
    (hmd : metaTruthy metadata = true)
    (hmg : metaGen = .ok s) :
    summarize video_path metadata true (.error e) metaGen =
      ⟨some s, .metadata_analysis, true, none⟩ := by
  subst hmg
  unfold summarize
  simp [hvp, hmd]

theorem summarize_video_failure_falls_back_witness :
    summarize (some "reel.mp4") (some ⟨some "a title", none⟩) true
      (.error (.summarizationError "Gemini API error: boom")) (.ok "meta summary") =
      ⟨some "meta summary", .metadata_analysis, true, none⟩ :=
  summarize_video_failure_falls_back (some "reel.mp4") (some ⟨some "a title", none⟩)
    (.summarizationError "Gemini API error: boom") "meta summary" (.ok "meta summary")
    (by decide) (by decide) rfl

/-- The video-path error captured by the orchestrator before falling
through: present exactly when a truthy video path was preferred and the
video attempt raised. -/
def capturedVideoError (video_path : Option String) (prefer_video : Bool)
    (videoGen : Except PyExc String) : Option String :=
  if strTruthy video_path && prefer_video then
    match videoGen with
    | .error e => some (excStr e)
    | .ok _ => none
  else none

/-- Claim C3, counterexample: in the final branch (no metadata), a
captured video error makes the code return `method = failed`, not
`method = none` as the claim states. -/
theorem summarize_final_branch_counterexample :
    summarize (some "reel.mp4") none true
        (.error (.summarizationError "Gemini API error: boom"))
        (.error (.summarizationError "x")) =
      ⟨none, .failed, false, some "Gemini API error: boom"⟩ ∧
    Method.failed ≠ Method.none_ := by
  constructor
  · decide
  · decide

/-- Claim C3, amended: in the final branch (metadata with neither a
truthy title nor description, and no successful preferred video attempt),
the result has `success = false` and no summary; when a non-empty video
error was captured the method is `failed` and the error is that captured
error; otherwise the method is `none` and the error is the generic
"no content" message (an empty captured error string is falsy in Python,
so it also yields the generic message and method `none`). -/
theorem summarize_final_branch
    (video_path : Option String) (metadata : Option Metadata) (prefer_video : Bool)
    (videoGen metaGen : Except PyExc String)
    (hmd : metaTruthy metadata = false)
    (hnk : (strTruthy video_path && prefer_video) = true → ∀ s, videoGen ≠ .ok s) :
    summarize video_path metadata prefer_video videoGen metaGen =
      match capturedVideoError video_path prefer_video videoGen with
      | some e =>
        if e ≠ "" then ⟨none, .failed, false, some e⟩
        else ⟨none, .none_, false, some noContentMsg⟩
      | none => ⟨none, .none_, false, some noContentMsg⟩ := by
  unfold summarize capturedVideoError
  cases hv : strTruthy video_path && prefer_video
  · simp [hmd, strTruthy]
  · cases videoGen with
    | ok s => exact absurd rfl (hnk hv s)
    | error e =>
      simp only [hmd, Bool.false_eq_true, if_false]
      by_cases he : excStr e = ""
      · simp [he, strTruthy]
      · simp [he, strTruthy]

theorem summarize_final_branch_witness :
    summarize none none false (.error (.summarizationError "x")) (.ok "m") =
      ⟨none, .none_, false, some noContentMsg⟩ := by
  have h := summarize_final_branch none none false
    (.error (.summarizationError "x")) (.ok "m") (by decide) (by intro hc; simp at hc)
  simpa [capturedVideoError] using h

/-- Claim C5: for every outcome combination of one `summarize_video`
attempt, remote deletion is attempted exactly once on the uploaded asset
whenever the upload succeeded (with a truthy name), on every exit path —
including generation success, generation failure, polling timeout and the
`FAILED` asset state; no deletion is attempted when no upload succeeded;
the outcome of the deletion call never changes the attempt's result; and
the `FAILED` polling state aborts the attempt with a generation error
while deletion is still attempted. -/
theorem summarize_video_release_exactly_once (p : String) (o : VideoCallOutcomes) :
    (∀ uri nm, o.fileExists = true → o.uploadRes = .ok (uri, nm) → nm ≠ "" →
      (summarize_video p o).2 = [nm]) ∧
    (o.fileExists = false → (summarize_video p o).2 = []) ∧
    (∀ e, o.uploadRes = .error e → (summarize_video p o).2 = []) ∧
    (∀ d, summarize_video p { o with delRes := d } = summarize_video p o) ∧
    (∀ uri nm, o.fileExists = true → o.uploadRes = .ok (uri, nm) →
      o.waitRes = .failedState →
      (summarize_video p o).1 = .error failedStateMsg) := by
  obtain ⟨fe, up, wr, gr, dr⟩ := o
  refine ⟨?_, ?_, ?_, ?_, ?_⟩
  · intro uri nm hfe hup hnm
    subst hfe; subst hup
    unfold summarize_video delete_file
    simp only [Bool.not_true, Bool.false_eq_true, if_false, reduceIte]
    cases wr <;> cases gr <;> cases dr <;> simp [hnm]
  · intro hfe
    subst hfe
    unfold summarize_video
    simp
  · intro e hup
    subst hup
    unfold summarize_video
    cases fe <;> simp
  · intro d
    unfold summarize_video delete_file
    cases fe <;> cases up <;> cases wr <;> cases gr <;> cases dr <;> cases d <;> simp
  · intro uri nm hfe hup hwr
    subst hfe; subst hup; subst hwr
    unfold summarize_video
    simp

theorem summarize_video_release_exactly_once_witness :
    (summarize_video "reel.mp4"
      ⟨true, .ok ("uri", "files/abc"), .failedState, .ok "s", .ok ()⟩).2 = ["files/abc"] :=
  (summarize_video_release_exactly_once "reel.mp4"
    ⟨true, .ok ("uri", "files/abc"), .failedState, .ok "s", .ok ()⟩).1
    "uri" "files/abc" rfl rfl (by decide)

/-- Claim C8: a section body that is entirely a "no content" phrase
yields no candidates, and in a multi-line body a line containing a
"no content" phrase is dropped while the other lines are parsed
normally. -/
theorem parse_location_lines_no_content :
    parse_location_lines "None mentioned" = [] ∧
    parse_location_lines "- Paris, France\n- Tokyo, Japan\n- None mentioned" =
      ["Paris, France", "Tokyo, Japan"] := by
  constructor
  · decide
  · decide

/-- Claim C10: `extract_title_from_summary` hands the summary back
unchanged as the second component for every input. -/
theorem extract_title_preserves_summary (summary : String) :
    (extract_title_from_summary summary).2 = summary := by
  unfold extract_title_from_summary
  split <;> rfl

/-- A summary whose icon section heading is followed by a whitespace-only
body (the capture group of the first pattern matches the tab). -/
def exSectionWs : String := "### " ++ String.mk [pinChar] ++ " Locations:\n\t"

/-- A summary with a well-formed icon section heading and one bullet. -/
def exSectionGood : String := "### " ++ String.mk [pinChar] ++ " Locations:\n- Paris\n"

/-- Claim C7, counterexample: on `exSectionWs` the first pattern
alternative matches (its capture group is the tab character), yet the
extractor returns nothing, because a match whose trimmed body is empty
falls through — so the result is not "the body captured by the first
alternative that matches". -/
theorem extract_locations_section_counterexample :
    reSearchPat secPat1 exSectionWs = some "\t" ∧
    extract_locations_section exSectionWs = none := by
  constructor
  · decide
  · decide

/-- Claim C7, amended: the extractor returns the trimmed body of the
first pattern alternative whose trimmed capture is non-empty; an
alternative that matches with a whitespace-only body is skipped and the
later alternatives are tried; when no alternative matches the extractor
returns nothing (not an error). -/
theorem extract_locations_section_priority :
    (∀ text b, reSearchPat secPat1 text = some b → pyStripStr b ≠ "" →
        extract_locations_section text = some (pyStripStr b)) ∧
    (∀ text, (∀ p ∈ sectionPats, reSearchPat p text = none) →
        extract_locations_section text = none) ∧
    (∀ text b c, reSearchPat secPat1 text = some b → pyStripStr b = "" →
        reSearchPat secPat2 text = some c → pyStripStr c ≠ "" →
        extract_locations_section text = some (pyStripStr c)) := by
  refine ⟨?_, ?_, ?_⟩
  · intro text b h hne
    simp only [extract_locations_section, sectionPats, extractSectionLoop, h, hne, if_true]
    simp [hne]
  · intro text h
    have h1 := h secPat1 (by simp [sectionPats])
    have h2 := h secPat2 (by simp [sectionPats])
    have h3 := h secPat3 (by simp [sectionPats])
    have h4 := h secPat4 (by simp [sectionPats])
    simp only [extract_locations_section, sectionPats, extractSectionLoop, h1, h2, h3, h4]
  · intro text b c h1 he h2 hne
    simp only [extract_locations_section, sectionPats, extractSectionLoop, h1, he, h2]
    simp [hne]

theorem extract_locations_section_priority_witness :
    extract_locations_section exSectionGood = some (pyStripStr "- Paris\n") :=
  extract_locations_section_priority.1 exSectionGood "- Paris\n" (by decide) (by decide)

/-- A summary in which the first title pattern matches a too-short title
(`AB`) while the third pattern later matches a valid one. -/
def exTitleText : String :=
  "# " ++ String.mk [tagChar] ++ "Title:\nAB\n" ++ String.mk [tagChar] ++
  "Title:\nGood Title Here\n\n"

/-- Claim C9, counterexample: on `exTitleText` the first pattern's match
cleans to `AB` (length 2, outside the 3–150 gate), yet extraction does
not report nothing — it returns the later pattern's valid title. -/
theorem extract_title_gate_counterexample :
    reSearchPat titlePat1 exTitleText = some "AB" ∧
    (cleanupTitle "AB").length < 3 ∧
    (extract_title_from_summary exTitleText).1 = some "Good Title Here" := by
  refine ⟨by decide, by decide, by decide⟩

theorem titleLoop_length_gate :
    ∀ (ps : List RPat) (s t : String), titleLoop s ps = some t →
      3 ≤ t.length ∧ t.length ≤ 150 := by
  intro ps
  induction ps with
  | nil => intro s t h; simp [titleLoop] at h
  | cons p rest ih =>
    intro s t h
    simp only [titleLoop] at h
    split at h
    · exact ih s t h
    · split at h
      · rename_i hg
        rw [Option.some.injEq] at h
        subst h
        simp only [Bool.and_eq_true, decide_eq_true_eq] at hg
        exact hg
      · exact ih s t h

/-- Claim C9, amended: the title extractor never returns a title whose
cleaned length is outside 3–150; a match whose cleaned title falls
outside the gate is discarded and the remaining patterns are tried, so
extraction reports nothing only when no pattern yields an in-range
title. -/
theorem extract_title_length_gate (s t : String)
    (h : (extract_title_from_summary s).1 = some t) :
    3 ≤ t.length ∧ t.length ≤ 150 := by
  unfold extract_title_from_summary at h
  by_cases hs : s = ""
  · rw [if_pos hs] at h; simp at h
  · rw [if_neg hs] at h
    exact titleLoop_length_gate titlePats s t h

theorem extract_title_length_gate_witness :
    3 ≤ ("Good Title Here" : String).length ∧
    ("Good Title Here" : String).length ≤ 150 :=
  extract_title_length_gate exTitleText "Good Title Here" (by decide)

/-! ## Length bounds for the cleaning stages (claim C6) -/

theorem pyStrip_length (cs : List Char) : (pyStrip cs).length ≤ cs.length := by
  unfold pyStrip
  have h1 := length_dropWhile_le isPySpace cs
  have h2 := length_dropWhile_le isPySpace (cs.dropWhile isPySpace).reverse
  simp only [List.length_reverse] at *
  omega

theorem stripPrepFind_length :
    ∀ {ps : List (List Char)}, (∀ p ∈ ps, p ≠ []) →
    ∀ {cs r : List Char}, stripPrepFind ps cs = some r → r.length < cs.length := by
  intro ps
  induction ps with
  | nil => intro _ cs r h; simp [stripPrepFind] at h
  | cons p ps' ih =>
    intro hne cs r h
    simp only [stripPrepFind] at h
    cases ho : stripPrepOne p cs with
    | some r' =>
      rw [ho] at h
      rw [Option.some.injEq] at h
      subst h
      exact stripPrepOne_length (hne p (by simp)) ho
    | none =>
      rw [ho] at h
      exact ih (fun x hx => hne x (by simp [hx])) h

theorem stripLeadingPrep_length (cs : List Char) :
    (stripLeadingPrep cs).length ≤ cs.length := by
  unfold stripLeadingPrep
  cases h : stripPrepFind prepositionList cs with
  | none => exact le_refl _
  | some r =>
    have := stripPrepFind_length (by intro p hp; fin_cases hp <;> simp) h
    show r.length ≤ cs.length
    omega

theorem stripDelimsF_length (op cl : Char) :
    ∀ (n : Nat) (cs : List Char), (stripDelimsF op cl n cs).length ≤ cs.length := by
  intro n
  induction n with
  | zero => intro cs; simp [stripDelimsF]
  | succ n ih =>
    intro cs
    cases cs with
    | nil => simp [stripDelimsF]
    | cons c rest =>
      simp only [stripDelimsF]
      by_cases hc : c = op
      · rw [if_pos hc]
        cases hf : findCloseNoNl cl rest with
        | some after =>
          have h1 := findCloseNoNl_length hf
          have h2 := ih after
          simp only [List.length_cons]
          omega
        | none =>
          have := ih rest
          simp only [List.length_cons]
          omega
      · rw [if_neg hc]
        have := ih rest
        simp only [List.length_cons]
        omega

theorem remArtF_length :
    ∀ (n : Nat) (start : Bool) (cs : List Char), (remArtF n start cs).length ≤ cs.length := by
  intro n
  induction n with
  | zero => intro start cs; simp [remArtF]
  | succ n ih =>
    intro start cs
    have hne : ∀ a ∈ articleList, a ≠ [] := by intro a ha; fin_cases ha <;> simp
    cases cs with
    | nil => cases start <;> simp [remArtF]
    | cons c rest =>
      cases start
      · simp only [remArtF, Bool.false_eq_true, if_false]
        split
        · split
          · rename_i hs after hm
            have h1 := matchArticleWs_length hne hm
            have h2 := ih false after
            simp only [List.length_cons]
            omega
          · have := ih false rest
            simp only [List.length_cons]
            omega
        · have := ih false rest
          simp only [List.length_cons]
          omega
      · simp only [remArtF, if_true]
        split
        · rename_i after hm
          have h1 := matchArticleWs_length hne hm
          have h2 := ih false after
          omega
        · split
          · split
            · rename_i hm hs after hm2
              have h1 := matchArticleWs_length hne hm2
              have h2 := ih false after
              simp only [List.length_cons]
              omega
            · have := ih false rest
              simp only [List.length_cons]
              omega
          · have := ih false rest
            simp only [List.length_cons]
            omega

theorem remArt_length (start : Bool) (cs : List Char) :
    (remArt start cs).length ≤ cs.length :=
  remArtF_length cs.length start cs

theorem dashScan_length :
    ∀ {cs kept : List Char}, dashScan cs = some kept → kept.length ≤ cs.length := by
  intro cs
  induction cs with
  | nil => intro kept h; simp [dashScan] at h
  | cons c rest ih =>
    intro kept h
    simp only [dashScan] at h
    split at h
    · rw [Option.some.injEq] at h
      subst h
      simp
    · split at h
      · rename_i kept' hs
        split at h
        · rw [Option.some.injEq] at h
          subst h
          simp
        · rw [Option.some.injEq] at h
          subst h
          have h1 := ih hs
          simp only [List.length_cons]
          omega
      · exact absurd h (by simp)

theorem commaScan_length :
    ∀ {cs kept : List Char}, commaScan cs = some kept → kept.length ≤ cs.length := by
  intro cs
  induction cs with
  | nil => intro kept h; simp [commaScan] at h
  | cons c rest ih =>
    intro kept h
    simp only [commaScan] at h
    split at h
    · rw [Option.some.injEq] at h
      subst h
      simp
    · split at h
      · rename_i kept' hs
        rw [Option.some.injEq] at h
        subst h
        have h1 := ih hs
        simp only [List.length_cons]
        omega
      · exact absurd h (by simp)

theorem splitFinalNl_length (cs : List Char) :
    (splitFinalNl cs).1.length + (splitFinalNl cs).2.length = cs.length := by
  unfold splitFinalNl
  cases cs with
  | nil => simp
  | cons c rest =>
    cases hl : (c :: rest).getLast? with
    | none => simp [List.getLast?] at hl
    | some x =>
      by_cases hx : x = '\n'
      · simp only [hx, if_true, reduceIte]
        simp [List.length_dropLast]
      · simp [hx]

theorem removeDashClause_length (cs : List Char) :
    (removeDashClause cs).length ≤ cs.length := by
  unfold removeDashClause
  have hs := splitFinalNl_length cs
  show (match dashScan (splitFinalNl cs).1 with
        | some kept => kept ++ (splitFinalNl cs).2
        | none => cs).length ≤ cs.length
  cases h : dashScan (splitFinalNl cs).1 with
  | none => exact le_refl _
  | some kept =>
    have := dashScan_length h
    show (kept ++ (splitFinalNl cs).2).length ≤ cs.length
    simp only [List.length_append]
    omega

theorem removeCommaClause_length (cs : List Char) :
    (removeCommaClause cs).length ≤ cs.length := by
  unfold removeCommaClause
  have hs := splitFinalNl_length cs
  show (match commaScan (splitFinalNl cs).1 with
        | some kept => kept ++ (splitFinalNl cs).2
        | none => cs).length ≤ cs.length
  cases h : commaScan (splitFinalNl cs).1 with
  | none => exact le_refl _
  | some kept =>
    have := commaScan_length h
    show (kept ++ (splitFinalNl cs).2).length ≤ cs.length
    simp only [List.length_append]
    omega

theorem stripQuotes_length (cs : List Char) : (stripQuotes cs).length ≤ cs.length := by
  unfold stripQuotes
  have h1 := length_dropWhile_le isQuoteChar cs
  have h2 := length_dropWhile_le isQuoteChar (cs.dropWhile isQuoteChar).reverse
  simp only [List.length_reverse] at *
  omega

theorem rstripPunct_length (cs : List Char) : (rstripPunct cs).length ≤ cs.length := by
  unfold rstripPunct
  have h := length_dropWhile_le isTrailPunct cs.reverse
  simp only [List.length_reverse] at *
  omega

theorem collapseWsCoreF_length :
    ∀ (n : Nat) (cs : List Char), (collapseWsCoreF n cs).length ≤ cs.length := by
  intro n
  induction n with
  | zero => intro cs; simp [collapseWsCoreF]
  | succ n ih =>
    intro cs
    cases cs with
    | nil => simp [collapseWsCoreF]
    | cons c rest =>
      simp only [collapseWsCoreF]
      by_cases hs : isPySpace c
      · rw [if_pos hs]
        by_cases he : (rest.dropWhile isPySpace).isEmpty
        · simp [he]
        · simp only [he, Bool.false_eq_true, if_false, reduceIte, List.length_cons]
          have h1 := ih (rest.dropWhile isPySpace)
          have h2 := length_dropWhile_le isPySpace rest
          omega
      · rw [if_neg hs]
        have := ih rest
        simp only [List.length_cons]
        omega

theorem collapseWs_length (cs : List Char) : (collapseWs cs).length ≤ cs.length := by
  unfold collapseWs
  have h1 := collapseWsCoreF_length cs.length (cs.dropWhile isPySpace)
  have h2 := length_dropWhile_le isPySpace cs
  omega

theorem stripDelims_length (op cl : Char) (cs : List Char) :
    (stripDelims op cl cs).length ≤ cs.length :=
  stripDelimsF_length op cl cs.length cs

/-- Every stage of `_clean_location_name` only removes characters or
replaces a whitespace run by a single space, so cleaning never lengthens
a name. -/
theorem clean_location_name_length_le (x : String) :
    (clean_location_name x).length ≤ x.length := by
  have h1 := pyStrip_length x.toList
  have h2 := stripLeadingPrep_length (pyStrip x.toList)
  have h3 := stripDelims_length '(' ')' (stripLeadingPrep (pyStrip x.toList))
  have h4 := stripDelims_length '[' ']'
    (stripDelims '(' ')' (stripLeadingPrep (pyStrip x.toList)))
  have h5 := remArt_length true
    (stripDelims '[' ']' (stripDelims '(' ')' (stripLeadingPrep (pyStrip x.toList))))
  have h6 := removeDashClause_length
    (remArt true (stripDelims '[' ']' (stripDelims '(' ')' (stripLeadingPrep (pyStrip x.toList)))))
  have h7 := removeCommaClause_length
    (removeDashClause (remArt true (stripDelims '[' ']'
      (stripDelims '(' ')' (stripLeadingPrep (pyStrip x.toList))))))
  have h8 := stripQuotes_length
    (removeCommaClause (removeDashClause (remArt true (stripDelims '[' ']'
      (stripDelims '(' ')' (stripLeadingPrep (pyStrip x.toList)))))))
  have h9 := rstripPunct_length
    (stripQuotes (removeCommaClause (removeDashClause (remArt true (stripDelims '[' ']'
      (stripDelims '(' ')' (stripLeadingPrep (pyStrip x.toList))))))))
  have h10 := collapseWs_length
    (rstripPunct (stripQuotes (removeCommaClause (removeDashClause (remArt true
      (stripDelims '[' ']' (stripDelims '(' ')' (stripLeadingPrep (pyStrip x.toList)))))))))
  have h11 := pyStrip_length
    (collapseWs (rstripPunct (stripQuotes (removeCommaClause (removeDashClause (remArt true
      (stripDelims '[' ']' (stripDelims '(' ')' (stripLeadingPrep (pyStrip x.toList))))))))))
  show (pyStrip (collapseWs (rstripPunct (stripQuotes (removeCommaClause (removeDashClause
    (remArt true (stripDelims '[' ']' (stripDelims '(' ')'
      (stripLeadingPrep (pyStrip x.toList))))))))))).length ≤ x.toList.length
  omega

/-- Claim C6, counterexample: `clean` is not idempotent — the leading
preposition exposed by stripping the outer one is only removed by a
second application. -/
theorem clean_not_idempotent :
    clean_location_name "in in Paris" = "in Paris" ∧
    clean_location_name (clean_location_name "in in Paris") = "Paris" ∧
    ("Paris" : String) ≠ "in Paris" := by
  refine ⟨by decide, by decide, by decide⟩

/-- Claim C6, amended: `clean` is not idempotent (a second application
can strip a leading preposition, article, quote or trailing punctuation
newly exposed by the first, as the counterexample shows); what holds for
every input is that a second application never lengthens the result:
`clean (clean x)` is at most as long as `clean x` — each stage only
deletes characters or collapses whitespace. -/
theorem clean_twice_length_le (x : String) :
    (clean_location_name (clean_location_name x)).length ≤
      (clean_location_name x).length :=
  clean_location_name_length_le (clean_location_name x)

/-! ## Claim C4: the 10-location cap -/

theorem geocodeMultipleGo_length (apiKeySet : Bool) (svc : String → Option GeoSuccess) :
    ∀ (names : List String) (seen : List (ℚ × ℚ)),
      (geocodeMultipleGo apiKeySet svc names seen).length ≤ names.length := by
  intro names
  induction names with
  | nil => intro seen; simp [geocodeMultipleGo]
  | cons name rest ih =>
    intro seen
    simp only [geocodeMultipleGo]
    split
    · have := ih seen
      simp only [List.length_cons]
      omega
    · split
      · have := ih seen
        simp only [List.length_cons]
        omega
      · rename_i loc heq hk
        have := ih ((round3 loc.latitude, round3 loc.longitude) :: seen)
        simp only [List.length_cons]
        omega

theorem geocode_multiple_length (apiKeySet : Bool) (svc : String → Option GeoSuccess)
    (names : List String) :
    (geocode_multiple apiKeySet svc names).length ≤ names.length := by
  unfold geocode_multiple
  cases apiKeySet with
  | false => simp
  | true =>
    simp only [Bool.not_true, Bool.false_eq_true, if_false, reduceIte]
    exact geocodeMultipleGo_length true svc names []

theorem extract_locations_from_text_length (text : String) :
    (extract_locations_from_text text).length ≤ 10 := by
  unfold extract_locations_from_text
  by_cases ht : text = ""
  · simp [ht]
  · rw [if_neg ht]
    cases extract_locations_section text with
    | none => simp
    | some sec =>
      by_cases he : (parse_location_lines sec).isEmpty
      · simp [he]
      · simp only [he, Bool.false_eq_true, if_false, reduceIte]
        exact List.length_take_le 10 _

/-- Eleven distinct candidate names, all passing the validity filter and
left unchanged by cleaning. -/
def namesEleven : List String := (List.range 11).map (fun i => "Paris" ++ toString i)

/-- A geocoding oracle giving each of the eleven names its own
coordinates (all distinct after rounding). -/
def svcEleven : String → Option GeoSuccess := fun s =>
  match namesEleven.findIdx? (fun n => n = s) with
  | some i => some ⟨(i : ℚ), 0, s⟩
  | none => none

set_option maxRecDepth 40000

/-- Claim C4, counterexample: `geocode_multiple` itself imposes no cap —
eleven candidate names whose lookups succeed with distinct coordinates
produce eleven locations. -/
theorem geocode_multiple_no_cap_counterexample :
    ¬ ((geocode_multiple true svcEleven namesEleven).length ≤ 10) := by
  with_unfolding_all decide

/-- Claim C4, amended: `geocode_multiple` returns at most one location
per supplied name (so its output is only bounded by the input size); the
10-entry cap is enforced upstream by `extract_locations_from_text`, which
truncates the candidate list to 10, so the extraction-resolution pipeline
never yields more than 10 locations. -/
theorem geocode_multiple_cap_via_extraction (apiKeySet : Bool)
    (svc : String → Option GeoSuccess) :
    (∀ names, (geocode_multiple apiKeySet svc names).length ≤ names.length) ∧
    (∀ text,
      (geocode_multiple apiKeySet svc (extract_locations_from_text text)).length ≤ 10) := by
  constructor
  · exact geocode_multiple_length apiKeySet svc
  · intro text
    exact le_trans (geocode_multiple_length apiKeySet svc _)
      (extract_locations_from_text_length text)

end ReelSummarize
